import Mathlib

/-!
# Verification of the EVEREST detrending core

Shallow embedding of the regularized pixel-decorrelation engine of the
`everest` repository (`src/everest/detrender.py`, `src/everest/gp.py`)
together with proofs of the specified properties.

Machine floats of the source are modelled as exact rationals (`ℚ`); real
transcendental quantities (the Matern-3/2 GP kernel of the external
`george` library) are modelled over `ℝ`.  Fallible NumPy operations
(`[0][-1]` indexing that can raise `IndexError`, `np.linalg.solve` that can
raise on singular input) are modelled with `Option`.
-/

namespace Everest

/-! ## `Detrender.optimize_lambda` (detrender.py lines 311-331)

The validation-scatter matrix is a list of rows; row `k` holds the scatter
for grid candidate `lambda_arr[k]`, one entry per validation fold (column).

```python
maxm = 0
minr = len(validation)
for n in range(validation.shape[1]):
  m = np.nanargmin(validation[:,n])
  if m > maxm:
    maxm = m
  r = np.where((validation[:,n] - validation[m,n]) /
                validation[m,n] <= self.leps)[0][-1]
  if r < minr:
    minr = r
return min(maxm, minr)
```
-/

/-- Embedding of `np.nanargmin` on a NaN-free vector: index of the first
occurrence of the minimum.  `bv` is the best value so far, `bi` its index,
`i` the index of the head of the remaining list. -/
def argminGo : List ℚ → ℚ → Nat → Nat → Nat
  | [], _, _, bi => bi
  | y :: ys, bv, i, bi =>
      if y < bv then argminGo ys y (i + 1) i else argminGo ys bv (i + 1) bi

/-- Embedding of `np.nanargmin` over a column (entries modelled as exact
rationals, so there are no NaNs to skip).  The source raises on an empty
input; the callers below only use it on nonempty columns, and we return
the junk index `0` on `[]`. -/
def nanargmin (c : List ℚ) : Nat :=
  match c with
  | [] => 0
  | x :: xs => argminGo xs x 1 0

/-- The minimum value of a nonempty rational list (`0` on `[]`). -/
def minVal : List ℚ → ℚ
  | [] => 0
  | x :: xs => xs.foldl min x

/-- Embedding of `np.where(pred)[0][-1]`: the largest index `i < len` with
`pred i`, or `none` when no index satisfies `pred` (the source raises
`IndexError` in that case). -/
def lastWhere (pred : Nat → Bool) (len : Nat) : Option Nat :=
  ((List.range len).filter pred).getLast?

/-- Column `n` of a row-major matrix. -/
def col (v : List (List ℚ)) (n : Nat) : List ℚ :=
  v.map (fun r => r.getD n 0)

/-- The per-column tolerance predicate of `optimize_lambda`:
`(validation[i,n] - validation[m,n]) / validation[m,n] <= leps`
with `m` the column's own argmin. -/
def withinTol (c : List ℚ) (m : Nat) (leps : ℚ) (i : Nat) : Bool :=
  decide ((c.getD i 0 - c.getD m 0) / c.getD m 0 ≤ leps)

/-- The loop of `optimize_lambda`: `ns` enumerates the columns still to be
processed, `maxm` and `minr` are the running accumulators.  Returns `none`
when the `[0][-1]` indexing of the source would raise. -/
def optLamGo (leps : ℚ) (v : List (List ℚ)) :
    List Nat → Nat → Nat → Option Nat
  | [], maxm, minr => some (min maxm minr)
  | n :: ns, maxm, minr =>
      let c := col v n
      let m := nanargmin c
      let maxm' := if m > maxm then m else maxm
      match lastWhere (withinTol c m leps) c.length with
      | none => none
      | some r => optLamGo leps v ns maxm' (if r < minr then r else minr)

/-- Embedding of `Detrender.optimize_lambda` (detrender.py 311-331).
`v` is the validation-scatter matrix as a list of rows; the number of
columns is the length of the first row (`validation.shape[1]`), and
`len(validation)` is the number of rows. -/
def optimize_lambda (leps : ℚ) (v : List (List ℚ)) : Option Nat :=
  optLamGo leps v (List.range (v.headD []).length) 0 v.length

/-! ### Spec-side selection rule (from the spec's words, §4.5 step 4)

`M` = the maximum over columns of the row index of that column's minimum
scatter; `R` = the minimum over columns of the largest row index whose
scatter is within fractional tolerance `leps` of that column's own
minimum. -/

/-- Spec-side largest in-tolerance row index for column `n`: the greatest
row index whose scatter is within fractional tolerance `leps` of the
column's own minimum value.  (Total function; the claims' hypotheses
guarantee the underlying index set is nonempty.) -/
def specR1 (leps : ℚ) (c : List ℚ) : Nat :=
  (((List.range c.length).filter
      (fun i => decide ((c.getD i 0 - minVal c) / minVal c ≤ leps))).getLast?).getD 0

/-- Spec-side `M`: maximum over columns of the row index of the column's
minimum scatter. -/
def specM (v : List (List ℚ)) : Nat :=
  ((List.range (v.headD []).length).map (fun n => nanargmin (col v n))).foldl
    max 0

/-- Spec-side `R`: minimum over columns of the largest in-tolerance row
index. -/
def specR (leps : ℚ) (v : List (List ℚ)) : Nat :=
  ((List.range (v.headD []).length).map (fun n => specR1 leps (col v n))).foldl
    min v.length

/-! ## The order loop of `Detrender.run` (detrender.py lines 946-952)

Each pass of the loop increments `lam_idx` and calls `cross_validate`,
which calls `optimize_lambda` on that order's validation-scatter matrix.
No selection state is carried between the calls; the sequence of chosen
grid indices over successive PLD orders is the per-order map below. -/

/-- The sequence of grid indices chosen across successive PLD orders, one
validation-scatter matrix per order. -/
def runOrders (leps : ℚ) (mats : List (List (List ℚ))) : List (Option Nat) :=
  mats.map (optimize_lambda leps)

/-! ## `Detrender.cv_compute` (detrender.py lines 253-265)

```python
A = np.sum([l * a for l, a in zip(self.lam[b], A) if l is not None], axis = 0)
B = np.sum([l * b for l, b in zip(self.lam[b], B) if l is not None], axis = 0)
W = np.linalg.solve(mK + A, f)
model = np.dot(B, W)
model -= np.nanmedian(model)
```

Vectors are `List ℚ`, matrices are row-major `List (List ℚ)`.
`np.linalg.solve` is external NumPy code; it is taken as a parameter
`solve` (the same linear-solve routine on both sides of the refinement,
used as a solve, never as an explicit inverse). -/

/-- Scalar-matrix product `l * a`. -/
def smulMat (c : ℚ) (m : List (List ℚ)) : List (List ℚ) :=
  m.map (fun r => r.map (fun x => c * x))

/-- Elementwise matrix sum (`numpy +` on equally-shaped matrices). -/
def matAdd (m1 m2 : List (List ℚ)) : List (List ℚ) :=
  List.zipWith (List.zipWith (· + ·)) m1 m2

/-- Embedding of `np.sum(list_of_matrices, axis = 0)` for a nonempty list
(for `[]`, NumPy collapses to the scalar `0.0`; we return the empty
matrix). -/
def npSumMats (ms : List (List (List ℚ))) : List (List ℚ) :=
  match ms with
  | [] => []
  | m :: rest => rest.foldl matAdd m

/-- Matrix-vector product `np.dot(B, W)`. -/
def mulVec (m : List (List ℚ)) (v : List ℚ) : List ℚ :=
  m.map (fun r => (List.zipWith (· * ·) r v).sum)

/-- Insertion into a sorted rational list (helper for the median). -/
def insertSorted (q : ℚ) : List ℚ → List ℚ
  | [] => [q]
  | x :: xs => if q ≤ x then q :: x :: xs else x :: insertSorted q xs

/-- Ascending insertion sort of a rational list. -/
def sortQ (l : List ℚ) : List ℚ :=
  l.foldr insertSorted []

/-- Embedding of `np.nanmedian` on a NaN-free vector: middle element of
the sorted list for odd length, mean of the two middle elements for even
length (junk `0` on `[]`, where NumPy yields NaN). -/
def medianQ (l : List ℚ) : ℚ :=
  let s := sortQ l
  if l.length % 2 = 1 then s.getD (l.length / 2) 0
  else (s.getD (l.length / 2 - 1) 0 + s.getD (l.length / 2) 0) / 2

/-- Pointwise subtraction of a constant (`model -= np.nanmedian(model)`). -/
def vecSubConst (v : List ℚ) (c : ℚ) : List ℚ :=
  v.map (fun x => x - c)

/-- Embedding of `Detrender.cv_compute` (detrender.py 253-265).  `lamb` is
the row `self.lam[b]` of the regularization table (entries `none` for
orders not yet reached); `A` and `B` hold the precomputed matrices, one
per PLD order; `mK` is the covariance submatrix, `f` the residual target.
The comprehension `[l * a for l, a in zip(lam, A) if l is not None]` is
the `filterMap` over the zip. -/
def cv_compute (solve : List (List ℚ) → List ℚ → List ℚ)
    (lamb : List (Option ℚ)) (A B : List (List (List ℚ)))
    (mK : List (List ℚ)) (f : List ℚ) : List ℚ :=
  let At := npSumMats ((lamb.zip A).filterMap
    (fun la => la.1.map (fun l => smulMat l la.2)))
  let Bt := npSumMats ((lamb.zip B).filterMap
    (fun lb => lb.1.map (fun l => smulMat l lb.2)))
  let W := solve (matAdd mK At) f
  let model := mulVec Bt W
  vecSubConst model (medianQ model)

/-- Spec-side total matrix `Σ_n λ[b][n] · M[n]`, the sum running over the
orders `n` whose `λ` entry is not null. -/
def totalMat (lamb : List (Option ℚ)) (Ms : List (List (List ℚ))) :
    List (List ℚ) :=
  npSumMats ((List.range lamb.length).filterMap
    (fun n => (lamb.getD n none).map (fun l => smulMat l (Ms.getD n []))))

/-- Spec-side model of §4.4: `A_total = Σ_n λ[b][n]·A[n]`,
`B_total = Σ_n λ[b][n]·B[n]` (non-null entries only),
`W = solve(K + A_total, f)`, `model = B_total · W` recentered by its
median. -/
def cvComputeSpec (solve : List (List ℚ) → List ℚ → List ℚ)
    (lamb : List (Option ℚ)) (A B : List (List (List ℚ)))
    (mK : List (List ℚ)) (f : List ℚ) : List ℚ :=
  let W := solve (matAdd mK (totalMat lamb A)) f
  let model := mulVec (totalMat lamb B) W
  vecSubConst model (medianQ model)

/-! ## `GetCovariance` (gp.py lines 19-31)

```python
white, amp, tau = kernel_params
gp = george.GP(amp ** 2 * Matern32Kernel(tau ** 2))
K = np.diag(errors ** 2)
K += gp.get_matrix(time)
```

The external `george` Matern-3/2 kernel with metric `tau ** 2` and
amplitude `amp ** 2` evaluates at lag `r = t1 - t2` to
`amp² (1 + sqrt(3 r² / tau²)) exp(-sqrt(3 r² / tau²))`. -/

/-- One entry of the `george` Matern-3/2 kernel matrix with amplitude
`amp ** 2` and metric `tau ** 2`. -/
noncomputable def matern32entry (amp tau t1 t2 : ℝ) : ℝ :=
  amp ^ 2 * (1 + Real.sqrt (3 * (t1 - t2) ^ 2 / tau ^ 2)) *
    Real.exp (-Real.sqrt (3 * (t1 - t2) ^ 2 / tau ^ 2))

/-- Embedding of `gp.get_matrix(time)` for the kernel above. -/
noncomputable def gpGetMatrix (amp tau : ℝ) (time : List ℝ) :
    List (List ℝ) :=
  time.map (fun t1 => time.map (fun t2 => matern32entry amp tau t1 t2))

/-- Embedding of `np.diag`. -/
def diagMat (v : List ℝ) : List (List ℝ) :=
  (List.range v.length).map (fun i =>
    (List.range v.length).map (fun j => if i = j then v.getD i 0 else 0))

/-- Elementwise real matrix sum. -/
noncomputable def matAddR (m1 m2 : List (List ℝ)) : List (List ℝ) :=
  List.zipWith (List.zipWith (· + ·)) m1 m2

/-- Embedding of `GetCovariance` (gp.py 19-31).  The kernel-parameter
triple is `(white, amp, tau)`; the `white` component is destructured and
never used, mirroring the source's deliberate exclusion of the white-noise
kernel term. -/
noncomputable def GetCovariance (kernel_params : ℝ × ℝ × ℝ)
    (time errors : List ℝ) : List (List ℝ) :=
  matAddR (diagMat (errors.map (fun e => e ^ 2)))
    (gpGetMatrix kernel_params.2.1 kernel_params.2.2 time)

/-- Spec-side covariance of §4.2:
`K = diag(errors²) + GP_kernel_matrix(time; amp, tau)`, a square matrix
sized to `time`. -/
noncomputable def covSpec (amp tau : ℝ) (time errors : List ℝ) :
    List (List ℝ) :=
  (List.range time.length).map (fun i =>
    (List.range time.length).map (fun j =>
      (if i = j then (errors.getD i 0) ^ 2 else 0) +
        matern32entry amp tau (time.getD i 0) (time.getD j 0)))

/-! ## Lambda-grid normalization (detrender.py lines 147-149)

```python
self.lambda_arr = kwargs.get('lambda_arr', 10 ** np.arange(0,18,0.5))
if self.lambda_arr[0] != 0:
  self.lambda_arr = np.append(0, self.lambda_arr)
```

The default grid starts at `10 ** 0 = 1`, so `0` is prepended to it. -/

/-- Embedding of the `lambda_arr` normalization of `Detrender.__init__`
(detrender.py 147-149) on a nonempty caller-supplied grid. -/
def normalizeLambdaArr (l : List ℚ) : List ℚ :=
  if l.headD 0 ≠ 0 then 0 :: l else l

/-! ## `Detrender.get_outliers` (detrender.py lines 267-309)

```python
outmask = [np.array([-1]), np.array(self.outmask)]
while not np.array_equal(outmask[-2], outmask[-1]):
  if len(outmask) - 1 > self.oiter: break
  if np.any([np.array_equal(outmask[-1], i) for i in outmask[:-1]]): break
  self.compute()
  ... inds = <sigma clip of the smoothed detrended flux> ...
  self.outmask = np.array(inds, dtype = int)
  outmask.append(np.array(inds))
```

The body's recomputation (`self.compute()`, Savitzky-Golay smoothing, the
robust sigma clip, projection back to unmasked indices) is a deterministic
function of the current outlier mask once the remaining model state is
fixed; it is abstracted as the parameter `clip`. -/

/-- `outmask[-1]`, the most recent outlier set in the history. -/
def lastMask (h : List (List Int)) : List Int :=
  h.getLast?.getD []

/-- `outmask[-2]`, the previous outlier set in the history. -/
def prevMask (h : List (List Int)) : List Int :=
  h.dropLast.getLast?.getD []

/-- The loop of `get_outliers`: `h` is the running history `outmask`.
Stops when the last two entries agree (the `while` condition), when the
iteration count exceeds `oiter`, or when the newest entry matches any
earlier entry (cycle detection); otherwise computes a new outlier set and
appends it. -/
def getOutliersGo (clip : List Int → List Int) (oiter : Nat)
    (h : List (List Int)) : List (List Int) :=
  if prevMask h = lastMask h then h
  else if h.length - 1 > oiter then h
  else if h.dropLast.any (fun i => i = lastMask h) then h
  else getOutliersGo clip oiter (h ++ [clip (lastMask h)])
termination_by oiter + 2 - h.length
decreasing_by
  simp only [List.length_append, List.length_cons, List.length_nil]
  omega

/-- Embedding of `Detrender.get_outliers` (detrender.py 267-309),
returning the full iteration history (`outmask`); the sentinel `[-1]` and
the incoming outlier mask seed the history as in the source. -/
def get_outliers (clip : List Int → List Int) (oiter : Nat)
    (outmask : List Int) : List (List Int) :=
  getOutliersGo clip oiter [[-1], outmask]

/-! ## `Detrender.cross_validate` (detrender.py lines 333-433)

The per-segment loop.  A cell of the regularization table is
`Option (WithBot ℚ)`: `none` is Python's `None` (order not yet reached),
`some ⊥` is `-np.inf`, `some (q : ℚ)` a finite value.  The
validation/training scatter matrices of a segment are produced by the GP
prediction and the design matrices of the `pld` module (external to the
sources under verification); they enter as the abstract per-segment data
`cvdata`, and the masked-chunk size `len(self.get_masked_chunk(b))` as
`chunkLen`.  Only the writes to `self.lam` and `self.cdppv_arr` are
modelled; during the candidate loop the source repeatedly overwrites the
single cell `lam[b][lam_idx]` (line 396) before the final assignment
(line 432), so the net effect on that one cell is the final value. -/

/-- A cell of the regularization table. -/
abbrev LamCell := Option (WithBot ℚ)

/-- Validation and training scatter matrices of one segment (rows indexed
by the lambda grid, columns by the folds). -/
structure CVData where
  validation : List (List ℚ)
  training : List (List ℚ)

/-- The state mutated by `cross_validate`: the regularization table
`self.lam` and the per-segment cross-validation metric `self.cdppv_arr`
(`none` models NaN). -/
structure CVState where
  lam : List (List LamCell)
  cdppv : List (Option ℚ)

/-- Write the single cell `lam[b][n]`. -/
def setLam (lam : List (List LamCell)) (b n : Nat) (v : LamCell) :
    List (List LamCell) :=
  lam.set b ((lam.getD b []).set n v)

/-- Read the cell `lam[b][n]`. -/
def lamGet (lam : List (List LamCell)) (b n : Nat) : LamCell :=
  (lam.getD b []).getD n none

/-- Embedding of `np.nanmean` on a NaN-free vector (junk `0` on `[]`). -/
def nanmean (l : List ℚ) : ℚ :=
  l.sum / l.length

/-- One pass of the segment loop of `cross_validate` (detrender.py
345-433) for segment `b`.  With fewer than `3 * cdivs` masked-chunk
points, the segment's metric becomes NaN and its current-order cell
`-inf`, and the loop continues (lines 354-359).  Otherwise the chosen
grid index is `optimize_lambda` of the segment's validation matrix, the
current-order cell receives `lambda_arr[i]`, and the metric the ratio of
the mean validation and training scatters at `i` (lines 421-432);
`none` propagates the `IndexError` that `optimize_lambda` can raise. -/
def cv_segment (leps : ℚ) (lambda_arr : List ℚ) (lam_idx cdivs : Nat)
    (chunkLen : Nat → Nat) (cvdata : Nat → CVData)
    (st : CVState) (b : Nat) : Option CVState :=
  if chunkLen b < 3 * cdivs then
    some ⟨setLam st.lam b lam_idx (some ⊥), st.cdppv.set b none⟩
  else
    match optimize_lambda leps (cvdata b).validation with
    | none => none
    | some i =>
      let v_best := nanmean (((cvdata b).validation).getD i [])
      let t_best := nanmean (((cvdata b).training).getD i [])
      some ⟨setLam st.lam b lam_idx (some ((lambda_arr.getD i 0 : ℚ) : WithBot ℚ)),
            st.cdppv.set b (some (v_best / t_best))⟩

/-- Embedding of `Detrender.cross_validate` (detrender.py 333-433): the
segment loop over `b in range(nseg)`, threading the mutated state;
`none` models an uncaught exception aborting the call. -/
def cross_validate (leps : ℚ) (lambda_arr : List ℚ) (lam_idx cdivs : Nat)
    (chunkLen : Nat → Nat) (cvdata : Nat → CVData) (nseg : Nat)
    (st : CVState) : Option CVState :=
  (List.range nseg).foldlM (cv_segment leps lambda_arr lam_idx cdivs chunkLen cvdata) st

/-! ## `GetKernelParams` bounds (gp.py lines 58-89)

```python
white = np.nanmedian([np.nanstd(c) for c in Chunks(flux, 13)])
amp = np.nanstd(flux)
tau = 30.0
if guess is None:
  guess = [white, amp, tau]
bounds = [[0.1 * white, 10. * white],
          [1., 10000. * amp],
          [0.5, 100.]]
```

The data-derived statistics `white` (median of per-chunk standard
deviations, chunk size 13) and `amp` (overall standard deviation) involve
floating-point square roots of the clipped flux; they enter the embedding
as the parameters `white` and `amp`.  The bounds list is passed unchanged
to every `fmin_l_bfgs_b` restart of the loop (line 87-89). -/

/-- Embedding of the guess-defaulting and bounds construction of
`GetKernelParams` (gp.py 58-68): returns the effective initial guess and
the optimizer bounds.  `white` and `amp` are the data-derived statistics
of lines 59-60. -/
def GetKernelParamsSetup (white amp : ℚ) (guess : Option (ℚ × ℚ × ℚ)) :
    (ℚ × ℚ × ℚ) × List (ℚ × ℚ) :=
  let g := match guess with
    | none => (white, amp, 30)
    | some g0 => g0
  (g, [(1/10 * white, 10 * white), (1, 10000 * amp), (1/2, 100)])

/-- The claim's bounds, built from the initial guess: white in
`[0.1·g_white, 10·g_white]`, amp in `[1, 10000·g_amp]`, tau in
`[0.5, 100]`. -/
def boundsFromGuess (g : ℚ × ℚ × ℚ) : List (ℚ × ℚ) :=
  [(1/10 * g.1, 10 * g.1), (1, 10000 * g.2.1), (1/2, 100)]

end Everest
namespace Everest

lemma argminGo_lt (l : List ℚ) : ∀ (bv : ℚ) (i bi : Nat), bi < i →
    argminGo l bv i bi < i + l.length := by
  induction l with
  | nil => intro bv i bi h; simpa [argminGo] using h
  | cons y ys ih =>
    intro bv i bi h
    simp only [argminGo]
    split
    · have h1 := ih y (i + 1) i (by omega)
      simp only [List.length_cons] at h1 ⊢
      omega
    · have h1 := ih bv (i + 1) bi (by omega)
      simp only [List.length_cons] at h1 ⊢
      omega

lemma argminGo_spec (l : List ℚ) : ∀ (c : List ℚ) (bv : ℚ) (i bi : Nat),
    c.getD bi 0 = bv → (∀ j, j < l.length → c.getD (i + j) 0 = l.getD j 0) →
    c.getD (argminGo l bv i bi) 0 = l.foldl min bv := by
  induction l with
  | nil => intro c bv i bi hbase _; simpa [argminGo] using hbase
  | cons y ys ih =>
    intro c bv i bi hbase hoff
    have hy : c.getD i 0 = y := by
      have := hoff 0 (by simp)
      simpa using this
    simp only [argminGo]
    split
    · have hrec := ih c y (i + 1) i hy (fun j hj => by
        have := hoff (j + 1) (by simpa using Nat.succ_lt_succ hj)
        simpa [Nat.add_comm, Nat.add_left_comm, Nat.add_assoc] using this)
      rw [hrec]
      simp only [List.foldl_cons]
      congr 1
      rename_i hlt
      exact (min_eq_right (le_of_lt hlt)).symm
    · have hrec := ih c bv (i + 1) bi hbase (fun j hj => by
        have := hoff (j + 1) (by simpa using Nat.succ_lt_succ hj)
        simpa [Nat.add_comm, Nat.add_left_comm, Nat.add_assoc] using this)
      rw [hrec]
      simp only [List.foldl_cons]
      congr 1
      rename_i hge
      exact (min_eq_left (not_lt.mp hge)).symm

lemma nanargmin_lt (c : List ℚ) (hc : c ≠ []) : nanargmin c < c.length := by
  match c, hc with
  | x :: xs, _ =>
    have := argminGo_lt xs x 1 0 (by omega)
    simpa [nanargmin, Nat.add_comm] using this

lemma getD_nanargmin (c : List ℚ) (hc : c ≠ []) :
    c.getD (nanargmin c) 0 = minVal c := by
  match c, hc with
  | x :: xs, _ =>
    have := argminGo_spec xs (x :: xs) x 1 0 (by simp)
      (fun j hj => by rw [Nat.add_comm]; simp)
    simpa [nanargmin, minVal] using this

lemma lastWhere_isSome {p : Nat → Bool} {len m : Nat} (hm : m < len)
    (hp : p m = true) : ∃ r, lastWhere p len = some r := by
  have hmem : m ∈ (List.range len).filter p := by
    simp [List.mem_filter, List.mem_range, hm, hp]
  have hne : (List.range len).filter p ≠ [] := List.ne_nil_of_mem hmem
  exact ⟨_, List.getLast?_eq_getLast_of_ne_nil hne⟩

lemma lastWhere_mem {p : Nat → Bool} {len r : Nat}
    (h : lastWhere p len = some r) : r < len ∧ p r = true := by
  have hmem : r ∈ (List.range len).filter p := by
    obtain ⟨hne, heq⟩ := List.mem_getLast?_eq_getLast h
    rw [heq]
    exact List.getLast_mem hne
  simpa [List.mem_filter, List.mem_range] using hmem

lemma col_ne_nil {v : List (List ℚ)} (hv : v ≠ []) (n : Nat) :
    col v n ≠ [] := by
  simpa [col] using hv

lemma col_length (v : List (List ℚ)) (n : Nat) :
    (col v n).length = v.length := by
  simp [col]

lemma lastWhere_col (leps : ℚ) (hleps : 0 ≤ leps) (c : List ℚ)
    (hc : c ≠ []) :
    lastWhere (withinTol c (nanargmin c) leps) c.length =
      some (specR1 leps c) ∧ specR1 leps c < c.length := by
  have hpred : withinTol c (nanargmin c) leps =
      fun i => decide ((c.getD i 0 - minVal c) / minVal c ≤ leps) := by
    funext i
    unfold withinTol
    rw [getD_nanargmin c hc]
  have hpm : withinTol c (nanargmin c) leps (nanargmin c) = true := by
    simp [withinTol, sub_self, zero_div, hleps]
  obtain ⟨r, hr⟩ := lastWhere_isSome (nanargmin_lt c hc) hpm
  have hspec : specR1 leps c = r := by
    have : lastWhere (withinTol c (nanargmin c) leps) c.length =
        ((List.range c.length).filter
          (fun i => decide ((c.getD i 0 - minVal c) / minVal c ≤ leps))).getLast? := by
      rw [lastWhere, hpred]
    rw [specR1, ← this, hr]
    rfl
  refine ⟨by rw [hr, hspec], ?_⟩
  rw [hspec]
  exact (lastWhere_mem hr).1

lemma optLamGo_spec (leps : ℚ) (v : List (List ℚ)) (hv : v ≠ [])
    (hleps : 0 ≤ leps) :
    ∀ (ns : List Nat) (maxm minr : Nat),
      optLamGo leps v ns maxm minr =
        some (min
          (ns.foldl (fun acc n => max acc (nanargmin (col v n))) maxm)
          (ns.foldl (fun acc n => min acc (specR1 leps (col v n))) minr)) := by
  intro ns
  induction ns with
  | nil => intro maxm minr; simp [optLamGo]
  | cons n ns ih =>
    intro maxm minr
    have hc := col_ne_nil hv n
    have hlw := lastWhere_col leps hleps (col v n) hc
    have h2 : (if nanargmin (col v n) > maxm then nanargmin (col v n) else maxm)
        = max maxm (nanargmin (col v n)) := by
      split <;> omega
    have h3 : (if specR1 leps (col v n) < minr then specR1 leps (col v n) else minr)
        = min minr (specR1 leps (col v n)) := by
      split <;> omega
    simp only [optLamGo]
    rw [hlw.1]
    simp only [List.foldl_cons]
    rw [ih, h2, h3]

lemma foldl_min_le_init (g : Nat → Nat) :
    ∀ (ns : List Nat) (init : Nat),
      ns.foldl (fun a n => min a (g n)) init ≤ init := by
  intro ns
  induction ns with
  | nil => intro init; simp
  | cons n ns ih =>
    intro init
    calc (n :: ns).foldl (fun a n => min a (g n)) init
        = ns.foldl (fun a n => min a (g n)) (min init (g n)) := by simp
      _ ≤ min init (g n) := ih _
      _ ≤ init := min_le_left _ _

lemma foldl_min_le_mem (g : Nat → Nat) :
    ∀ (ns : List Nat) (x : Nat), x ∈ ns → ∀ (init : Nat),
      ns.foldl (fun a n => min a (g n)) init ≤ g x := by
  intro ns
  induction ns with
  | nil => intro x hx; exact absurd hx (List.not_mem_nil x)
  | cons n ns ih =>
    intro x hx init
    rcases List.mem_cons.mp hx with h | h
    · subst h
      calc (x :: ns).foldl (fun a n => min a (g n)) init
          = ns.foldl (fun a n => min a (g n)) (min init (g x)) := by simp
        _ ≤ min init (g x) := foldl_min_le_init g ns _
        _ ≤ g x := min_le_right _ _
    · simpa using ih x h (min init (g n))

/-- Claim C2 (tie-break selection rule): for every validation-scatter
matrix (rows indexed by the lambda grid, columns by validation folds)
with `leps ≥ 0` and each column having a strictly positive finite
minimum, `optimize_lambda` returns `min M R`, where `M` is the maximum
over columns of the row index of that column's minimum scatter and `R`
is the minimum over columns of the largest row index whose scatter is
within fractional tolerance `leps` of that column's own minimum. -/
theorem optimize_lambda_tiebreak (leps : ℚ) (v : List (List ℚ))
    (hv : v ≠ []) (hleps : 0 ≤ leps)
    (_hpos : ∀ n, n < (v.headD []).length → 0 < minVal (col v n)) :
    optimize_lambda leps v = some (min (specM v) (specR leps v)) := by
  unfold optimize_lambda specM specR
  rw [optLamGo_spec leps v hv hleps, List.foldl_map, List.foldl_map]

/-- Witness for C2 at a concrete 2-by-1 scatter matrix. -/
theorem optimize_lambda_tiebreak_witness :
    ([[2], [1]] : List (List ℚ)) ≠ [] ∧ (0 : ℚ) ≤ 0 ∧
      (∀ n, n < (([[2], [1]] : List (List ℚ)).headD []).length →
        0 < minVal (col [[2], [1]] n)) ∧
      optimize_lambda 0 [[2], [1]] =
        some (min (specM [[2], [1]]) (specR 0 [[2], [1]])) := by
  refine ⟨by simp, le_refl 0, ?_, ?_⟩
  · intro n hn
    have hn0 : n = 0 := by simpa using hn
    subst hn0
    norm_num [minVal, col]
  · refine optimize_lambda_tiebreak 0 [[2], [1]] (by simp) (le_refl 0) ?_
    intro n hn
    have hn0 : n = 0 := by simpa using hn
    subst hn0
    norm_num [minVal, col]

/-- Claim C10 (safety of the returned grid index): for every nonempty
validation matrix with `leps ≥ 0` and each column having a strictly
positive finite minimum, `optimize_lambda` succeeds and returns an index
within `0 .. rows - 1`, so indexing `lambda_arr` at the result stays in
bounds. -/
theorem optimize_lambda_index_valid (leps : ℚ) (v : List (List ℚ))
    (hv : v ≠ []) (hleps : 0 ≤ leps)
    (_hpos : ∀ n, n < (v.headD []).length → 0 < minVal (col v n)) :
    ∃ i, optimize_lambda leps v = some i ∧ i < v.length := by
  have hlen : 0 < v.length := List.length_pos.mpr hv
  unfold optimize_lambda
  rw [optLamGo_spec leps v hv hleps]
  refine ⟨_, rfl, ?_⟩
  by_cases h0 : (v.headD []).length = 0
  · rw [h0]
    simp only [List.range_zero, List.foldl_nil]
    omega
  · have h0mem : 0 ∈ List.range (v.headD []).length :=
      List.mem_range.mpr (by omega)
    have hR := foldl_min_le_mem (fun n => specR1 leps (col v n))
      (List.range (v.headD []).length) 0 h0mem v.length
    have hr1 : specR1 leps (col v 0) < v.length := by
      have h := (lastWhere_col leps hleps (col v 0) (col_ne_nil hv 0)).2
      rwa [col_length] at h
    exact lt_of_le_of_lt (le_trans (min_le_right _ _) hR) hr1

/-- Witness for C10 at a concrete 2-by-1 scatter matrix. -/
theorem optimize_lambda_index_valid_witness :
    ([[2], [1]] : List (List ℚ)) ≠ [] ∧ (0 : ℚ) ≤ 0 ∧
      (∀ n, n < (([[2], [1]] : List (List ℚ)).headD []).length →
        0 < minVal (col [[2], [1]] n)) ∧
      ∃ i, optimize_lambda 0 [[2], [1]] = some i ∧
        i < ([[2], [1]] : List (List ℚ)).length := by
  refine ⟨by simp, le_refl 0, ?_, ?_⟩
  · intro n hn
    have hn0 : n = 0 := by simpa using hn
    subst hn0
    norm_num [minVal, col]
  · refine optimize_lambda_index_valid 0 [[2], [1]] (by simp) (le_refl 0) ?_
    intro n hn
    have hn0 : n = 0 := by simpa using hn
    subst hn0
    norm_num [minVal, col]

/-- Counterexample to claim C1: over the two successive validation
matrices `[[2],[1]]` (order `k`) and `[[1],[2]]` (order `k+1`), the grid
index chosen for order `k+1` is strictly less than the index chosen for
order `k`, refuting cross-order monotonicity of the selection. -/
theorem optimize_lambda_not_monotonic :
    ((runOrders 0 [[[2], [1]], [[1], [2]]]).getD 1 none).getD 0 <
      ((runOrders 0 [[[2], [1]], [[1], [2]]]).getD 0 none).getD 0 := by
  norm_num [runOrders, optimize_lambda, optLamGo, lastWhere, withinTol,
    col, nanargmin, argminGo, List.range_succ, List.find?, List.getD,
    List.getLast?]

/-- Claim C1 as amended: the selection keeps no state across PLD orders;
the grid index chosen at order `k` is a function of order `k`'s
validation-scatter matrix alone, so it is not in general bounded below by
the index chosen at order `k - 1`. -/
theorem runOrders_stateless (leps : ℚ) (mats : List (List (List ℚ)))
    (k : Nat) (hk : k < mats.length) :
    (runOrders leps mats).getD k none = optimize_lambda leps (mats.getD k []) := by
  unfold runOrders
  rw [List.getD_eq_getElem?_getD, List.getElem?_map,
    List.getElem?_eq_getElem hk, List.getD_eq_getElem?_getD,
    List.getElem?_eq_getElem hk]
  rfl

/-- Witness for the amended C1 at a concrete one-order sequence. -/
theorem runOrders_stateless_witness :
    (0 : Nat) < ([[[2], [1]]] : List (List (List ℚ))).length ∧
      (runOrders 0 [[[2], [1]]]).getD 0 none =
        optimize_lambda 0 (([[[2], [1]]] : List (List (List ℚ))).getD 0 []) := by
  exact ⟨by simp, runOrders_stateless 0 [[[2], [1]]] 0 (by simp)⟩

/-- Claim C5 (lambda-grid normalization): for every nonempty
caller-supplied `lambda_arr`, after normalization the grid starts with
`0`; `0` is prepended exactly when the supplied first element differs
from `0`, and the grid is left unchanged when it already starts with `0`.
The default grid `10 ** np.arange(0, 18, 0.5)` starts at `10 ** 0 = 1`,
so it is an instance of the prepending case. -/
theorem lambda_arr_normalization (l : List ℚ) (hl : l ≠ []) :
    (normalizeLambdaArr l).headD 1 = 0
    ∧ (l.headD 0 ≠ 0 → normalizeLambdaArr l = 0 :: l)
    ∧ (l.headD 0 = 0 → normalizeLambdaArr l = l) := by
  match l, hl with
  | x :: xs, _ =>
    by_cases hx : x = 0
    · subst hx
      simp [normalizeLambdaArr]
    · simp [normalizeLambdaArr, hx]

/-- Witness for C5 at a grid shaped like the head of the default grid. -/
theorem lambda_arr_normalization_witness :
    ([1, 10] : List ℚ) ≠ [] ∧
      ((normalizeLambdaArr [1, 10]).headD 1 = 0
        ∧ (([1, 10] : List ℚ).headD 0 ≠ 0 → normalizeLambdaArr [1, 10] = 0 :: [1, 10])
        ∧ (([1, 10] : List ℚ).headD 0 = 0 → normalizeLambdaArr [1, 10] = [1, 10])) := by
  exact ⟨by simp, lambda_arr_normalization [1, 10] (by simp)⟩

/-- Counterexample to claim C8: with data-derived statistics
`white = 1`, `amp = 1` and the caller-supplied guess `(2, 3, 30)`, the
bounds passed to the optimizer differ from the guess-derived bounds the
claim asserts. -/
theorem kernel_bounds_counterexample :
    (GetKernelParamsSetup 1 1 (some (2, 3, 30))).2 ≠ boundsFromGuess (2, 3, 30) := by
  norm_num [GetKernelParamsSetup, boundsFromGuess]

/-- Claim C8 as amended: the restart bounds of `GetKernelParams` are
built from the data-derived statistics `white` (median of per-chunk
standard deviations) and `amp` (overall standard deviation), independent
of any caller-supplied guess; they coincide with the guess-derived bounds
`white in [0.1 g, 10 g]`, `amp in [1, 10000 g]`, `tau in [0.5, 100]`
exactly in the default case, where the guess is the data statistics
themselves. -/
theorem kernel_bounds_from_data (white amp : ℚ) :
    (∀ g : ℚ × ℚ × ℚ, (GetKernelParamsSetup white amp (some g)).2 =
      (GetKernelParamsSetup white amp none).2)
    ∧ (GetKernelParamsSetup white amp none).2 =
        boundsFromGuess (GetKernelParamsSetup white amp none).1 := by
  exact ⟨fun g => rfl, rfl⟩

lemma GetCovariance_eq_covSpec (white amp tau : ℝ) (time errors : List ℝ)
    (hlen : errors.length = time.length) :
    GetCovariance (white, amp, tau) time errors = covSpec amp tau time errors := by
  apply List.ext_getElem
  · simp [GetCovariance, covSpec, matAddR, diagMat, gpGetMatrix, hlen]
  · intro i h1 h2
    apply List.ext_getElem
    · simp [GetCovariance, covSpec, matAddR, diagMat, gpGetMatrix, hlen] at h1 h2 ⊢
    · intro j h3 h4
      have hi : i < time.length := by
        simpa [GetCovariance, covSpec, matAddR, diagMat, gpGetMatrix, hlen] using h2
      have hj : j < time.length := by
        simpa [covSpec] using h4
      simp only [GetCovariance, covSpec, matAddR, diagMat, gpGetMatrix,
        List.getElem_zipWith, List.getElem_map, List.getElem_range]
      have hie : i < errors.length := by omega
      have e1 : (List.map (fun e : ℝ => e ^ 2) errors).getD i 0 =
          errors.getD i 0 ^ 2 := by
        rw [List.getD_eq_getElem _ _ (by simpa using hie),
          List.getD_eq_getElem _ _ hie]
        simp
      simp only [e1, List.getD_eq_getElem _ _ hi, List.getD_eq_getElem _ _ hj]

/-- Claim C4 (covariance builder): for every kernel triple
`(white, amp, tau)` and every time grid with matching-length error
vector, `GetCovariance` returns a square matrix sized to `time` equal to
`diag(errors²)` plus the Matern-3/2 kernel matrix with amplitude `amp`
and timescale `tau`; the white-noise kernel term is excluded, so the
result does not depend on the `white` component. -/
theorem GetCovariance_spec (white amp tau : ℝ) (time errors : List ℝ)
    (hlen : errors.length = time.length) :
    GetCovariance (white, amp, tau) time errors = covSpec amp tau time errors
    ∧ (GetCovariance (white, amp, tau) time errors).length = time.length
    ∧ (∀ row ∈ GetCovariance (white, amp, tau) time errors,
        row.length = time.length)
    ∧ ∀ white2 : ℝ, GetCovariance (white, amp, tau) time errors =
        GetCovariance (white2, amp, tau) time errors := by
  have heq := GetCovariance_eq_covSpec white amp tau time errors hlen
  refine ⟨heq, ?_, ?_, fun white2 => rfl⟩
  · rw [heq]
    simp [covSpec]
  · intro row hrow
    rw [heq] at hrow
    simp only [covSpec, List.mem_map] at hrow
    obtain ⟨i, _, hrow⟩ := hrow
    rw [← hrow]
    simp

/-- Witness for C4 at a concrete two-point time grid. -/
theorem GetCovariance_spec_witness :
    ([3, 4] : List ℝ).length = ([0, 1] : List ℝ).length ∧
      (GetCovariance (7, 2, 5) [0, 1] [3, 4] = covSpec 2 5 [0, 1] [3, 4]
        ∧ (GetCovariance (7, 2, 5) [0, 1] [3, 4]).length = ([0, 1] : List ℝ).length
        ∧ (∀ row ∈ GetCovariance (7, 2, 5) [0, 1] [3, 4],
            row.length = ([0, 1] : List ℝ).length)
        ∧ ∀ white2 : ℝ, GetCovariance (7, 2, 5) [0, 1] [3, 4] =
            GetCovariance (white2, 2, 5) [0, 1] [3, 4]) := by
  exact ⟨rfl, GetCovariance_spec 7 2 5 [0, 1] [3, 4] rfl⟩

lemma zip_filterMap_range {α β γ : Type} (g : α → β → γ) (d : β) :
    ∀ (xs : List (Option α)) (ys : List β), xs.length = ys.length →
      (xs.zip ys).filterMap (fun p => p.1.map (fun l => g l p.2)) =
      (List.range xs.length).filterMap
        (fun n => (xs.getD n none).map (fun l => g l (ys.getD n d))) := by
  intro xs
  induction xs with
  | nil =>
    intro ys h
    simp
  | cons x xs ih =>
    intro ys h
    match ys, h with
    | y :: ys, h =>
      have hlen : xs.length = ys.length := by simpa using h
      rw [List.zip_cons_cons, List.filterMap_cons, List.length_cons,
        List.range_succ_eq_map, List.filterMap_cons, List.filterMap_map]
      have hcomp : (fun n => ((x :: xs).getD n none).map
            (fun l => g l ((y :: ys).getD n d))) ∘ Nat.succ
          = fun n => (xs.getD n none).map (fun l => g l (ys.getD n d)) := by
        funext n
        simp
      rw [hcomp, ← ih ys hlen]
      simp

/-- Claim C3 (regularized regression solver): `cv_compute` returns
`B_total · W` recentered by its median, where `A_total` and `B_total`
are the sums of `lam[b][n] * A[n]` and `lam[b][n] * B[n]` over the
non-null entries of `lam[b]`, and `W` is the linear solve of
`(mK + A_total) W = f` (the same `solve` routine, used as a solve and
not as an explicit inverse). -/
theorem cv_compute_eq_spec (solve : List (List ℚ) → List ℚ → List ℚ)
    (lamb : List (Option ℚ)) (A B : List (List (List ℚ)))
    (mK : List (List ℚ)) (f : List ℚ)
    (hA : lamb.length = A.length) (hB : lamb.length = B.length) :
    cv_compute solve lamb A B mK f = cvComputeSpec solve lamb A B mK f := by
  unfold cv_compute cvComputeSpec totalMat
  rw [zip_filterMap_range smulMat [] lamb A hA,
    zip_filterMap_range smulMat [] lamb B hB]

/-- Witness for C3 at a concrete one-point system with a two-order
regularization row. -/
theorem cv_compute_eq_spec_witness :
    ([some 2, none] : List (Option ℚ)).length =
        ([[[1]], [[3]]] : List (List (List ℚ))).length ∧
      ([some 2, none] : List (Option ℚ)).length =
        ([[[5]], [[7]]] : List (List (List ℚ))).length ∧
      cv_compute (fun _ r => r) [some 2, none] [[[1]], [[3]]] [[[5]], [[7]]]
          [[1]] [4] =
        cvComputeSpec (fun _ r => r) [some 2, none] [[[1]], [[3]]] [[[5]], [[7]]]
          [[1]] [4] := by
  exact ⟨rfl, rfl, cv_compute_eq_spec (fun _ r => r) [some 2, none]
    [[[1]], [[3]]] [[[5]], [[7]]] [[1]] [4] rfl rfl⟩

lemma getOutliersGo_length (clip : List Int → List Int) (oiter : Nat) :
    ∀ (k : Nat) (h : List (List Int)), oiter + 2 - h.length ≤ k →
      h.length ≤ oiter + 2 → (getOutliersGo clip oiter h).length ≤ oiter + 2 := by
  intro k
  induction k with
  | zero =>
    intro h hk hlen
    rw [getOutliersGo]
    split_ifs with h1 h2 h3
    · exact hlen
    · exact hlen
    · exact hlen
    · omega
  | succ k ih =>
    intro h hk hlen
    rw [getOutliersGo]
    split_ifs with h1 h2 h3
    · exact hlen
    · exact hlen
    · exact hlen
    · apply ih
      · simp only [List.length_append, List.length_cons, List.length_nil]
        omega
      · simp only [List.length_append, List.length_cons, List.length_nil]
        omega

lemma getOutliersGo_exit (clip : List Int → List Int) (oiter : Nat) :
    ∀ (k : Nat) (h : List (List Int)), oiter + 2 - h.length ≤ k →
      prevMask (getOutliersGo clip oiter h) =
          lastMask (getOutliersGo clip oiter h)
        ∨ (getOutliersGo clip oiter h).length - 1 > oiter
        ∨ ((getOutliersGo clip oiter h).dropLast.any
            (fun i => i = lastMask (getOutliersGo clip oiter h))) = true := by
  intro k
  induction k with
  | zero =>
    intro h hk
    rw [getOutliersGo]
    split_ifs with h1 h2 h3
    · exact Or.inl h1
    · exact Or.inr (Or.inl h2)
    · exact Or.inr (Or.inr h3)
    · omega
  | succ k ih =>
    intro h hk
    rw [getOutliersGo]
    split_ifs with h1 h2 h3
    · exact Or.inl h1
    · exact Or.inr (Or.inl h2)
    · exact Or.inr (Or.inr h3)
    · apply ih
      simp only [List.length_append, List.length_cons, List.length_nil]
      omega

/-- Claim C6 (outlier-filter termination): `get_outliers` is a total
function (its definition is accepted by well-founded recursion on the
remaining iteration budget, which is the termination proof); the loop
exits with the last two outlier sets equal (fixed point), or with the
iteration count exceeding `oiter`, or with the newest set matching an
earlier iteration's set (cycle detection); and the history never grows
beyond `2 + oiter` entries, i.e. the loop body that computes and appends
a new outlier set executes at most `oiter` times. -/
theorem get_outliers_terminates (clip : List Int → List Int) (oiter : Nat)
    (outmask : List Int) :
    (get_outliers clip oiter outmask).length ≤ 2 + oiter
    ∧ (prevMask (get_outliers clip oiter outmask) =
          lastMask (get_outliers clip oiter outmask)
      ∨ (get_outliers clip oiter outmask).length - 1 > oiter
      ∨ ((get_outliers clip oiter outmask).dropLast.any
          (fun i => i = lastMask (get_outliers clip oiter outmask))) = true) := by
  constructor
  · have h := getOutliersGo_length clip oiter (oiter + 2) [[-1], outmask]
      (by omega) (by simp)
    simpa [get_outliers, Nat.add_comm] using h
  · exact getOutliersGo_exit clip oiter (oiter + 2) [[-1], outmask] (by omega)

lemma getD_set_ne {α : Type} : ∀ (l : List α) (i j : Nat) (v d : α), i ≠ j →
    (l.set i v).getD j d = l.getD j d := by
  intro l
  induction l with
  | nil => intro i j v d h; simp
  | cons x xs ih =>
    intro i j v d h
    cases i with
    | zero =>
      cases j with
      | zero => exact absurd rfl h
      | succ j => simp
    | succ i =>
      cases j with
      | zero => simp
      | succ j => simpa using ih i j v d (by omega)

lemma getD_set_self {α : Type} : ∀ (l : List α) (i : Nat) (v d : α), i < l.length →
    (l.set i v).getD i d = v := by
  intro l
  induction l with
  | nil => intro i v d h; simp at h
  | cons x xs ih =>
    intro i v d h
    cases i with
    | zero => simp
    | succ i => simpa using ih i v d (by simpa using h)

section CrossValidateLemmas

variable (leps : ℚ) (lambda_arr : List ℚ) (lam_idx cdivs : Nat)
variable (chunkLen : Nat → Nat) (cvdata : Nat → CVData)

lemma setLam_length (lam : List (List LamCell)) (b n : Nat) (v : LamCell) :
    (setLam lam b n v).length = lam.length := by
  simp [setLam]

lemma setLam_row_ne (lam : List (List LamCell)) (b n : Nat) (v : LamCell) :
    ∀ c, c ≠ b → (setLam lam b n v).getD c [] = lam.getD c [] := by
  intro c hc
  unfold setLam
  exact getD_set_ne _ _ _ _ _ (fun h => hc h.symm)

lemma lamGet_setLam_ne (lam : List (List LamCell)) (b n : Nat) (v : LamCell) :
    ∀ c m, m ≠ n → lamGet (setLam lam b n v) c m = lamGet lam c m := by
  intro c m hm
  unfold lamGet
  by_cases hcb : c = b
  · subst hcb
    unfold setLam
    rcases Nat.lt_or_ge c lam.length with hlt | hge
    · rw [getD_set_self _ _ _ _ hlt, getD_set_ne _ _ _ _ _ (fun h => hm h.symm)]
    · have e1 : (lam.set c ((lam.getD c []).set n v)).getD c ([] : List LamCell) = [] :=
        List.getD_eq_default _ _ (by simpa using hge)
      have e2 : lam.getD c ([] : List LamCell) = [] :=
        List.getD_eq_default _ _ hge
      rw [e1, e2]
  · rw [setLam_row_ne lam b n v c hcb]

lemma lamGet_setLam_self (lam : List (List LamCell)) (b n : Nat) (v : LamCell)
    (hb : b < lam.length) (hn : n < (lam.getD b []).length) :
    lamGet (setLam lam b n v) b n = v := by
  unfold lamGet setLam
  rw [getD_set_self _ _ _ _ hb, getD_set_self _ _ _ _ hn]

lemma cv_segment_insufficient (st : CVState) (c : Nat)
    (hc : chunkLen c < 3 * cdivs) :
    cv_segment leps lambda_arr lam_idx cdivs chunkLen cvdata st c =
      some ⟨setLam st.lam c lam_idx (some ⊥), st.cdppv.set c none⟩ := by
  unfold cv_segment
  rw [if_pos hc]

lemma cv_segment_shape (st : CVState) (c : Nat)
    (hok : ¬ chunkLen c < 3 * cdivs →
      (optimize_lambda leps (cvdata c).validation).isSome) :
    ∃ v w, cv_segment leps lambda_arr lam_idx cdivs chunkLen cvdata st c =
      some ⟨setLam st.lam c lam_idx v, st.cdppv.set c w⟩ := by
  unfold cv_segment
  by_cases hc : chunkLen c < 3 * cdivs
  · exact ⟨some ⊥, none, by rw [if_pos hc]⟩
  · rw [if_neg hc]
    cases hopt : optimize_lambda leps (cvdata c).validation with
    | none => exact absurd (hok hc) (by simp [hopt])
    | some i =>
      exact ⟨some ((lambda_arr.getD i 0 : ℚ) : WithBot ℚ),
        some (nanmean (((cvdata c).validation).getD i []) /
          nanmean (((cvdata c).training).getD i [])),
        rfl⟩

lemma cv_segment_cell_frame (st st1 : CVState) (c : Nat)
    (h : cv_segment leps lambda_arr lam_idx cdivs chunkLen cvdata st c = some st1) :
    ∀ b n, n ≠ lam_idx → lamGet st1.lam b n = lamGet st.lam b n := by
  intro b n hn
  unfold cv_segment at h
  by_cases hc : chunkLen c < 3 * cdivs
  · rw [if_pos hc] at h
    injection h with h1
    rw [← h1]
    exact lamGet_setLam_ne st.lam c lam_idx (some ⊥) b n hn
  · rw [if_neg hc] at h
    cases hopt : optimize_lambda leps (cvdata c).validation with
    | none => rw [hopt] at h; exact absurd h (by simp)
    | some i =>
      rw [hopt] at h
      injection h with h1
      rw [← h1]
      exact lamGet_setLam_ne st.lam c lam_idx _ b n hn

lemma fold_frame : ∀ (ns : List Nat) (st st' : CVState),
    List.foldlM (cv_segment leps lambda_arr lam_idx cdivs chunkLen cvdata) st ns = some st' →
    ∀ b n, n ≠ lam_idx → lamGet st'.lam b n = lamGet st.lam b n := by
  intro ns
  induction ns with
  | nil =>
    intro st st' h b n hn
    obtain rfl : st = st' := by simpa using h
    rfl
  | cons c ns ih =>
    intro st st' h b n hn
    rw [List.foldlM_cons] at h
    cases hstep : cv_segment leps lambda_arr lam_idx cdivs chunkLen cvdata st c with
    | none => rw [hstep] at h; simp at h
    | some st1 =>
      rw [hstep] at h
      have hrest : List.foldlM (cv_segment leps lambda_arr lam_idx cdivs chunkLen cvdata) st1 ns = some st' := by
        simpa using h
      rw [ih st1 st' hrest b n hn]
      exact cv_segment_cell_frame leps lambda_arr lam_idx cdivs chunkLen cvdata st st1 c hstep b n hn

lemma fold_preserves : ∀ (ns : List Nat) (st : CVState) (b : Nat),
    (∀ c ∈ ns, ¬ chunkLen c < 3 * cdivs →
      (optimize_lambda leps (cvdata c).validation).isSome) →
    b ∉ ns →
    ∃ st', List.foldlM (cv_segment leps lambda_arr lam_idx cdivs chunkLen cvdata) st ns = some st'
      ∧ lamGet st'.lam b lam_idx = lamGet st.lam b lam_idx
      ∧ st'.cdppv.getD b (some 0) = st.cdppv.getD b (some 0) := by
  intro ns
  induction ns with
  | nil =>
    intro st b _ _
    exact ⟨st, rfl, rfl, rfl⟩
  | cons c ns ih =>
    intro st b hok hb
    have hbc : b ≠ c := fun h => hb (h ▸ List.mem_cons_self c ns)
    obtain ⟨v, w, hstep⟩ := cv_segment_shape leps lambda_arr lam_idx cdivs chunkLen cvdata st c
      (hok c (List.mem_cons_self c ns))
    obtain ⟨st', hfold, h1, h2⟩ := ih ⟨setLam st.lam c lam_idx v, st.cdppv.set c w⟩ b
      (fun c' hc' => hok c' (List.mem_cons_of_mem _ hc'))
      (fun hmem => hb (List.mem_cons_of_mem _ hmem))
    refine ⟨st', ?_, ?_, ?_⟩
    · rw [List.foldlM_cons, hstep]
      simpa using hfold
    · rw [h1]
      simp only [lamGet]
      rw [setLam_row_ne st.lam c lam_idx v b hbc]
    · rw [h2]
      exact getD_set_ne _ _ _ _ _ (fun h => hbc h.symm)

lemma fold_insufficient : ∀ (ns : List Nat), ns.Nodup → ∀ (st : CVState) (b : Nat), b ∈ ns →
    (∀ c ∈ ns, ¬ chunkLen c < 3 * cdivs →
      (optimize_lambda leps (cvdata c).validation).isSome) →
    chunkLen b < 3 * cdivs →
    b < st.lam.length → lam_idx < (st.lam.getD b []).length → b < st.cdppv.length →
    ∃ st', List.foldlM (cv_segment leps lambda_arr lam_idx cdivs chunkLen cvdata) st ns = some st'
      ∧ lamGet st'.lam b lam_idx = some ⊥
      ∧ st'.cdppv.getD b (some 0) = none := by
  intro ns
  induction ns with
  | nil =>
    intro _ st b hb
    exact absurd hb (List.not_mem_nil b)
  | cons c ns ih =>
    intro hnd st b hb hok hins hblam hbrow hbcd
    rcases List.mem_cons.mp hb with hbc | hbmem
    · subst hbc
      have hstep := cv_segment_insufficient leps lambda_arr lam_idx cdivs chunkLen cvdata st b hins
      have hbnot : b ∉ ns := (List.nodup_cons.mp hnd).1
      obtain ⟨st', hfold, h1, h2⟩ := fold_preserves leps lambda_arr lam_idx cdivs chunkLen cvdata ns
        ⟨setLam st.lam b lam_idx (some ⊥), st.cdppv.set b none⟩ b
        (fun c' hc' => hok c' (List.mem_cons_of_mem _ hc')) hbnot
      refine ⟨st', ?_, ?_, ?_⟩
      · rw [List.foldlM_cons, hstep]
        simpa using hfold
      · rw [h1]
        exact lamGet_setLam_self st.lam b lam_idx (some ⊥) hblam hbrow
      · rw [h2]
        exact getD_set_self _ _ _ _ hbcd
    · have hcb : b ≠ c := fun h => (List.nodup_cons.mp hnd).1 (h ▸ hbmem)
      obtain ⟨v, w, hstep⟩ := cv_segment_shape leps lambda_arr lam_idx cdivs chunkLen cvdata st c
        (hok c (List.mem_cons_self c ns))
      have hrow : (setLam st.lam c lam_idx v).getD b [] = st.lam.getD b [] :=
        setLam_row_ne st.lam c lam_idx v b hcb
      obtain ⟨st', hfold, hm1, hm2⟩ := ih (List.nodup_cons.mp hnd).2
        ⟨setLam st.lam c lam_idx v, st.cdppv.set c w⟩ b hbmem
        (fun c' hc' => hok c' (List.mem_cons_of_mem _ hc')) hins
        (by simpa [setLam_length] using hblam)
        (by rw [show (⟨setLam st.lam c lam_idx v, st.cdppv.set c w⟩ : CVState).lam
              = setLam st.lam c lam_idx v from rfl, hrow]
            exact hbrow)
        (by simpa using hbcd)
      refine ⟨st', ?_, hm1, hm2⟩
      rw [List.foldlM_cons, hstep]
      simpa using hfold

end CrossValidateLemmas

/-- Claim C9 (frame property of the regularization table): a completed
call of `cross_validate` with active-order pointer `lam_idx` writes only
the cells `lam[b][lam_idx]` — every cell whose order index differs from
`lam_idx` (in particular every lower order's cell) holds the same value
after the call as before, so lower orders' cells are frozen once set
across the order loop of `run`. -/
theorem cross_validate_lam_frame (leps : ℚ) (lambda_arr : List ℚ)
    (lam_idx cdivs : Nat) (chunkLen : Nat → Nat) (cvdata : Nat → CVData)
    (nseg : Nat) (st st' : CVState)
    (h : cross_validate leps lambda_arr lam_idx cdivs chunkLen cvdata nseg st = some st') :
    ∀ b n, n ≠ lam_idx → lamGet st'.lam b n = lamGet st.lam b n := by
  unfold cross_validate at h
  exact fold_frame leps lambda_arr lam_idx cdivs chunkLen cvdata (List.range nseg) st st' h

/-- Witness for C9: a one-segment run with an insufficient chunk writes
only the order-1 cell and leaves the order-0 cell untouched. -/
theorem cross_validate_lam_frame_witness :
    cross_validate 0 [] 1 1 (fun _ => 0) (fun _ => ⟨[], []⟩) 1
        ⟨[[some ((5 : ℚ) : WithBot ℚ), none]], [some 1]⟩ =
      some ⟨[[some ((5 : ℚ) : WithBot ℚ), some ⊥]], [none]⟩
    ∧ lamGet ([[some ((5 : ℚ) : WithBot ℚ), some ⊥]] : List (List LamCell)) 0 0 =
        lamGet ([[some ((5 : ℚ) : WithBot ℚ), none]] : List (List LamCell)) 0 0 := by
  refine ⟨rfl, ?_⟩
  exact cross_validate_lam_frame 0 [] 1 1 (fun _ => 0) (fun _ => ⟨[], []⟩) 1
    ⟨[[some ((5 : ℚ) : WithBot ℚ), none]], [some 1]⟩
    ⟨[[some ((5 : ℚ) : WithBot ℚ), some ⊥]], [none]⟩ rfl 0 0 (by decide)

/-- Claim C7 (insufficient-data handling): if segment `b` has fewer than
`3 * cdivs` masked-chunk points, a `cross_validate` call (with the other
segments well-posed) completes without raising, sets `lam[b][lam_idx]`
to `-inf`, marks the segment's cross-validation metric as NaN, and
processes the remaining segments. -/
theorem cross_validate_insufficient_data (leps : ℚ) (lambda_arr : List ℚ)
    (lam_idx cdivs : Nat) (chunkLen : Nat → Nat) (cvdata : Nat → CVData)
    (nseg : Nat) (st : CVState) (b : Nat)
    (hb : b < nseg)
    (hins : chunkLen b < 3 * cdivs)
    (hok : ∀ c, c < nseg → ¬ chunkLen c < 3 * cdivs →
      (optimize_lambda leps (cvdata c).validation).isSome)
    (hblam : b < st.lam.length)
    (hbrow : lam_idx < (st.lam.getD b []).length)
    (hbcd : b < st.cdppv.length) :
    ∃ st', cross_validate leps lambda_arr lam_idx cdivs chunkLen cvdata nseg st = some st'
      ∧ lamGet st'.lam b lam_idx = some ⊥
      ∧ st'.cdppv.getD b (some 0) = none := by
  unfold cross_validate
  exact fold_insufficient leps lambda_arr lam_idx cdivs chunkLen cvdata
    (List.range nseg) (List.nodup_range nseg) st b (List.mem_range.mpr hb)
    (fun c hc => hok c (List.mem_range.mp hc)) hins hblam hbrow hbcd

/-- Witness for C7: a two-segment run where segment 0 is insufficient and
segment 1 is insufficient as well, so the well-posedness hypothesis is
vacuous. -/
theorem cross_validate_insufficient_data_witness :
    (0 : Nat) < 2 ∧ (fun _ : Nat => 0) 0 < 3 * 1 ∧
      ∃ st', cross_validate 0 [] 0 1 (fun _ => 0) (fun _ => ⟨[], []⟩) 2
          ⟨[[none], [none]], [some 2, some 3]⟩ = some st'
        ∧ lamGet st'.lam 0 0 = some ⊥
        ∧ st'.cdppv.getD 0 (some 0) = none := by
  refine ⟨by decide, by decide, ?_⟩
  exact cross_validate_insufficient_data 0 [] 0 1 (fun _ => 0) (fun _ => ⟨[], []⟩) 2
    ⟨[[none], [none]], [some 2, some 3]⟩ 0 (by decide) (by decide)
    (fun c hc hcon => absurd (by decide : (0 : Nat) < 3 * 1) hcon)
    (by decide) (by decide) (by decide)

end Everest
